import Mathlib

/-!
Verification of the host-side protocol engine in
`klippy/extras/display/vin_display.py`: the CRC engine, the frame
decoder (`parse_incoming_data`), the command encoder (`send_cmd` and the
three outgoing command builders) and the command dispatcher
(`dispatch_in_commands` with its knob/button/buzzer handlers).

Bytes are modelled as `Nat` (Python `bytearray` elements are integers in
`[0, 255]`; Python's unbounded integer arithmetic is modelled exactly, with
no implicit masking).  Timestamps (Python `time()` floats) are modelled as
rationals.  Fallible operations (`struct.unpack`, indexing) return
`Option`.
-/

set_option maxRecDepth 100000

namespace VinDisplay

/-! ## Protocol constants (verbatim from the source) -/

def MESSAGE_MIN : Nat := 5
def MESSAGE_MAX : Nat := 128
def MESSAGE_SYNC : Nat := 0x7e

def CMD_DISPLAY_TEXT : Nat := 10
def CMD_KNOB_EVENT : Nat := 12
def CMD_BUTTON_EVENT : Nat := 13
def CMD_BUZZER_PLAY : Nat := 14
def CMD_BUZZER_QUEUE : Nat := 15
def CMD_BUZZER_EVENT : Nat := 16

/-- Modelled from the spec: `MESSAGE_TRAILER_SIZE` is referenced by
`send_cmd` but its definition is not among the provided sources (it lives
elsewhere in the repository).  The spec's wire layout (length byte, payload,
2 CRC bytes, 1 sync byte, with the length byte equal to
`payload_len + trailer_size + 1` and counting every byte of the frame)
forces the trailer — CRC plus sync — to be 3 bytes. -/
def MESSAGE_TRAILER_SIZE : Nat := 3

/-! ## CRC engine

`crc16_ccitt` from the source, over Python's unbounded integers: the
accumulator `crc` is never explicitly masked to 16 bits. -/

/-- One iteration of the `for data in buf` loop of `crc16_ccitt`. -/
def crc16_step (crc data : Nat) : Nat :=
  let d1 := data ^^^ (crc &&& 0xff)
  let d2 := d1 ^^^ ((d1 &&& 0x0f) <<< 4)
  ((d2 <<< 8) ||| (crc >>> 8)) ^^^ (d2 >>> 4) ^^^ (d2 <<< 3)

/-- The accumulator after the whole loop of `crc16_ccitt`. -/
def crc16_acc (buf : List Nat) : Nat :=
  buf.foldl crc16_step 0xffff

/-- `crc16_ccitt(buf)` from the source: returns the two result bytes,
most-significant first. -/
def crc16_ccitt (buf : List Nat) : List Nat :=
  [crc16_acc buf >>> 8, crc16_acc buf &&& 0xff]

/-- One loop iteration as the spec words it: the same steps with every
intermediate value reduced modulo `2^16` ("all arithmetic 16-bit,
wrapping"). -/
def crc16_step_spec (crc data : Nat) : Nat :=
  let d1 := (data ^^^ (crc &&& 0xff)) % 2 ^ 16
  let d2 := (d1 ^^^ (((d1 &&& 0x0f) <<< 4) % 2 ^ 16)) % 2 ^ 16
  ((((d2 <<< 8) % 2 ^ 16) ||| (crc >>> 8)) ^^^ (d2 >>> 4) ^^^
    ((d2 <<< 3) % 2 ^ 16)) % 2 ^ 16

/-- The CRC computation as the spec words it, with wrapping 16-bit
arithmetic throughout. -/
def crc16_ccitt_spec (buf : List Nat) : List Nat :=
  let c := buf.foldl crc16_step_spec 0xffff
  [c >>> 8, c &&& 0xff]

/-! Bounds for the CRC accumulator. -/

theorem xor_lt_pow {x y n : Nat} (hx : x < 2 ^ n) (hy : y < 2 ^ n) :
    x ^^^ y < 2 ^ n :=
  Nat.bitwise_lt hx hy

theorem or_lt_pow {x y n : Nat} (hx : x < 2 ^ n) (hy : y < 2 ^ n) :
    x ||| y < 2 ^ n :=
  Nat.bitwise_lt hx hy

theorem shiftLeft_lt_pow {x n m k : Nat} (h : x < 2 ^ n) (hk : n + m ≤ k) :
    x <<< m < 2 ^ k :=
  Nat.lt_of_lt_of_le (Nat.shiftLeft_lt h) (Nat.pow_le_pow_right (by norm_num) hk)

theorem shiftRight_le {x m : Nat} : x >>> m ≤ x := by
  rw [Nat.shiftRight_eq_div_pow]; exact Nat.div_le_self _ _

theorem and_lt_pow_right {x y n : Nat} (hy : y < 2 ^ n) : x &&& y < 2 ^ n :=
  Nat.lt_of_le_of_lt Nat.and_le_right hy

theorem crc16_step_lt {crc data : Nat} (hc : crc < 2 ^ 16)
    (hd : data < 2 ^ 8) : crc16_step crc data < 2 ^ 16 := by
  unfold crc16_step
  have h1 : data ^^^ (crc &&& 0xff) < 2 ^ 8 :=
    xor_lt_pow hd (and_lt_pow_right (by norm_num))
  set d1 := data ^^^ (crc &&& 0xff) with hd1
  have h2 : d1 ^^^ ((d1 &&& 0x0f) <<< 4) < 2 ^ 8 := by
    refine xor_lt_pow h1 ?_
    exact shiftLeft_lt_pow (n := 4) (and_lt_pow_right (by norm_num)) (by norm_num)
  set d2 := d1 ^^^ ((d1 &&& 0x0f) <<< 4) with hd2
  refine xor_lt_pow (xor_lt_pow (or_lt_pow ?_ ?_) ?_) ?_
  · exact shiftLeft_lt_pow h2 (by norm_num)
  · exact Nat.lt_of_le_of_lt shiftRight_le hc
  · exact Nat.lt_of_le_of_lt shiftRight_le
      (Nat.lt_of_lt_of_le h2 (by norm_num))
  · exact shiftLeft_lt_pow h2 (by norm_num)

/-- On in-range inputs the unbounded-integer step agrees with the
wrapping 16-bit step: no intermediate ever reaches `2^16`, so every
`% 2^16` of the spec's wording is the identity. -/
theorem crc16_step_eq_spec {crc data : Nat} (hc : crc < 2 ^ 16)
    (hd : data < 2 ^ 8) : crc16_step_spec crc data = crc16_step crc data := by
  simp only [crc16_step, crc16_step_spec]
  have h1 : data ^^^ (crc &&& 0xff) < 2 ^ 8 :=
    xor_lt_pow hd (and_lt_pow_right (by norm_num))
  rw [Nat.mod_eq_of_lt (Nat.lt_of_lt_of_le h1 (by norm_num))]
  set d1 := data ^^^ (crc &&& 0xff) with hd1
  have hs : (d1 &&& 0x0f) <<< 4 < 2 ^ 8 :=
    shiftLeft_lt_pow (n := 4) (and_lt_pow_right (by norm_num)) (by norm_num)
  rw [Nat.mod_eq_of_lt (Nat.lt_of_lt_of_le hs (by norm_num))]
  have h2 : d1 ^^^ ((d1 &&& 0x0f) <<< 4) < 2 ^ 8 := xor_lt_pow h1 hs
  rw [Nat.mod_eq_of_lt (Nat.lt_of_lt_of_le h2 (by norm_num))]
  set d2 := d1 ^^^ ((d1 &&& 0x0f) <<< 4) with hd2
  rw [Nat.mod_eq_of_lt (shiftLeft_lt_pow h2 (by norm_num))]
  rw [Nat.mod_eq_of_lt (shiftLeft_lt_pow h2 (by norm_num : (8 : Nat) + 3 ≤ 16))]
  rw [Nat.mod_eq_of_lt]
  refine xor_lt_pow (xor_lt_pow (or_lt_pow ?_ ?_) ?_) ?_
  · exact shiftLeft_lt_pow h2 (by norm_num)
  · exact Nat.lt_of_le_of_lt shiftRight_le hc
  · exact Nat.lt_of_le_of_lt shiftRight_le
      (Nat.lt_of_lt_of_le h2 (by norm_num))
  · exact shiftLeft_lt_pow h2 (by norm_num)

/-- Invariant of the whole loop: starting from any accumulator below
`2^16`, every intermediate accumulator stays below `2^16` and the
unbounded and wrapping computations coincide. -/
theorem crc16_foldl_lt_and_eq_spec (buf : List Nat) :
    ∀ crc : Nat, crc < 2 ^ 16 → (∀ x ∈ buf, x < 2 ^ 8) →
      buf.foldl crc16_step crc < 2 ^ 16 ∧
        buf.foldl crc16_step_spec crc = buf.foldl crc16_step crc := by
  induction buf with
  | nil => exact fun crc hc _ => ⟨hc, rfl⟩
  | cons b rest ih =>
    intro crc hc hmem
    have hb : b < 2 ^ 8 := hmem b (List.mem_cons_self b rest)
    have hrest : ∀ x ∈ rest, x < 2 ^ 8 :=
      fun x hx => hmem x (List.mem_cons_of_mem b hx)
    have hstep := crc16_step_lt hc hb
    have := ih (crc16_step crc b) hstep hrest
    refine ⟨this.1, ?_⟩
    simp only [List.foldl_cons, crc16_step_eq_spec hc hb]
    exact this.2

theorem crc16_acc_lt (buf : List Nat) (h : ∀ x ∈ buf, x < 2 ^ 8) :
    crc16_acc buf < 2 ^ 16 :=
  (crc16_foldl_lt_and_eq_spec buf 0xffff (by norm_num) h).1

/-! ## Frame decoder

`VinDisplay.parse_incoming_data`: a `while` loop over the receive buffer
`self.rdata`, appending validated frames to `self.in_commands`.  The loop
is modelled with an explicit fuel argument (every iteration that does not
exit removes at least one byte from the buffer, so `rdata.length` units of
fuel always suffice); `parse_incoming_data` below instantiates the fuel at
that bound, and the `parse_...` unfolding lemmas recover the loop's
step-by-step behaviour. -/

/-- One run of the decoder loop, fuelled.  The branch order is exactly the
source's: sync-byte drop, length-range check, enough-bytes check,
terminator check, CRC check, emit. -/
def parse_fuel : Nat → List Nat → List (List Nat) → List Nat × List (List Nat)
  | 0, rdata, cmds => (rdata, cmds)
  | fuel + 1, rdata, cmds =>
    match rdata with
    | [] => ([], cmds)
    | b :: rest =>
      if rest.length + 1 < MESSAGE_MIN then (b :: rest, cmds)
      else if b = MESSAGE_SYNC then parse_fuel fuel rest cmds
      else if ¬ (MESSAGE_MIN ≤ b ∧ b ≤ MESSAGE_MAX) then parse_fuel fuel rest cmds
      else if rest.length + 1 < b then (b :: rest, cmds)
      else if (b :: rest)[b - 1]? ≠ some MESSAGE_SYNC then parse_fuel fuel rest cmds
      else if crc16_ccitt ((b :: rest).take (b - 3)) ≠ ((b :: rest).drop (b - 3)).take 2
        then parse_fuel fuel rest cmds
      else parse_fuel fuel ((b :: rest).drop b) (cmds ++ [(b :: rest).take b])

/-- Any two sufficient fuel amounts give the same run. -/
theorem parse_fuel_congr :
    ∀ fuel fuel' rdata cmds, rdata.length ≤ fuel → rdata.length ≤ fuel' →
      parse_fuel fuel rdata cmds = parse_fuel fuel' rdata cmds := by
  intro fuel
  induction fuel with
  | zero =>
    intro fuel' rdata cmds h h'
    have : rdata = [] := List.length_eq_zero.mp (Nat.le_zero.mp h)
    subst this
    cases fuel' <;> rfl
  | succ n ih =>
    intro fuel' rdata cmds h h'
    match rdata with
    | [] => cases fuel' <;> rfl
    | b :: rest =>
      match fuel' with
      | 0 => exact absurd h' (by simp)
      | m + 1 =>
        have hrest : rest.length ≤ n := by simp at h; omega
        have hrest' : rest.length ≤ m := by simp at h'; omega
        simp only [parse_fuel]
        by_cases h1 : rest.length + 1 < MESSAGE_MIN
        · simp only [if_pos h1]
        simp only [if_neg h1]
        by_cases h2 : b = MESSAGE_SYNC
        · simp only [if_pos h2]; exact ih m rest cmds hrest hrest'
        simp only [if_neg h2]
        by_cases h3 : ¬ (MESSAGE_MIN ≤ b ∧ b ≤ MESSAGE_MAX)
        · simp only [if_pos h3]; exact ih m rest cmds hrest hrest'
        simp only [if_neg h3]
        by_cases h4 : rest.length + 1 < b
        · simp only [if_pos h4]
        simp only [if_neg h4]
        by_cases h5 : (b :: rest)[b - 1]? ≠ some MESSAGE_SYNC
        · simp only [if_pos h5]; exact ih m rest cmds hrest hrest'
        simp only [if_neg h5]
        by_cases h6 : crc16_ccitt ((b :: rest).take (b - 3)) ≠
            ((b :: rest).drop (b - 3)).take 2
        · simp only [if_pos h6]; exact ih m rest cmds hrest hrest'
        simp only [if_neg h6]
        have hb5 : MESSAGE_MIN ≤ b := (not_not.mp h3).1
        simp only [MESSAGE_MIN] at hb5
        have hdrop : ((b :: rest).drop b).length ≤ n := by
          simp only [List.length_drop, List.length_cons]; omega
        have hdrop' : ((b :: rest).drop b).length ≤ m := by
          simp only [List.length_drop, List.length_cons]; omega
        exact ih m _ _ hdrop hdrop'

/-- `parse_incoming_data(rdata, cmds)`: the decoder loop of the source,
run to completion. -/
def parse_incoming_data (rdata : List Nat) (cmds : List (List Nat)) :
    List Nat × List (List Nat) :=
  parse_fuel rdata.length rdata cmds

/-! Unfolding lemmas, one per branch of the loop body. -/

/-- Loop guard: with fewer than `MESSAGE_MIN` buffered bytes the loop
does not run. -/
theorem parse_small {rdata : List Nat} (cmds : List (List Nat))
    (h : rdata.length < MESSAGE_MIN) :
    parse_incoming_data rdata cmds = (rdata, cmds) := by
  match rdata with
  | [] => rfl
  | b :: rest =>
    simp only [parse_incoming_data, List.length_cons, parse_fuel]
    rw [if_pos (by simpa using h)]

theorem parse_sync_drop {rest : List Nat} (cmds : List (List Nat))
    (h5 : ¬ rest.length + 1 < MESSAGE_MIN) :
    parse_incoming_data (MESSAGE_SYNC :: rest) cmds =
      parse_incoming_data rest cmds := by
  simp only [parse_incoming_data, List.length_cons, parse_fuel]
  rw [if_neg h5]
  simp

theorem parse_bad_range {b : Nat} {rest : List Nat} (cmds : List (List Nat))
    (h5 : ¬ rest.length + 1 < MESSAGE_MIN) (hb : b ≠ MESSAGE_SYNC)
    (hr : ¬ (MESSAGE_MIN ≤ b ∧ b ≤ MESSAGE_MAX)) :
    parse_incoming_data (b :: rest) cmds = parse_incoming_data rest cmds := by
  simp only [parse_incoming_data, List.length_cons, parse_fuel]
  rw [if_neg h5, if_neg hb, if_pos hr]

theorem parse_wait {b : Nat} {rest : List Nat} (cmds : List (List Nat))
    (h5 : ¬ rest.length + 1 < MESSAGE_MIN) (hb : b ≠ MESSAGE_SYNC)
    (hr : MESSAGE_MIN ≤ b ∧ b ≤ MESSAGE_MAX) (hw : rest.length + 1 < b) :
    parse_incoming_data (b :: rest) cmds = (b :: rest, cmds) := by
  simp only [parse_incoming_data, List.length_cons, parse_fuel]
  rw [if_neg h5, if_neg hb, if_neg (not_not.mpr hr), if_pos hw]

theorem parse_bad_term {b : Nat} {rest : List Nat} (cmds : List (List Nat))
    (h5 : ¬ rest.length + 1 < MESSAGE_MIN) (hb : b ≠ MESSAGE_SYNC)
    (hr : MESSAGE_MIN ≤ b ∧ b ≤ MESSAGE_MAX) (hw : ¬ rest.length + 1 < b)
    (ht : (b :: rest)[b - 1]? ≠ some MESSAGE_SYNC) :
    parse_incoming_data (b :: rest) cmds = parse_incoming_data rest cmds := by
  simp only [parse_incoming_data, List.length_cons, parse_fuel]
  rw [if_neg h5, if_neg hb, if_neg (not_not.mpr hr), if_neg hw, if_pos ht]

theorem parse_bad_crc {b : Nat} {rest : List Nat} (cmds : List (List Nat))
    (h5 : ¬ rest.length + 1 < MESSAGE_MIN) (hb : b ≠ MESSAGE_SYNC)
    (hr : MESSAGE_MIN ≤ b ∧ b ≤ MESSAGE_MAX) (hw : ¬ rest.length + 1 < b)
    (ht : (b :: rest)[b - 1]? = some MESSAGE_SYNC)
    (hcrc : crc16_ccitt ((b :: rest).take (b - 3)) ≠
      ((b :: rest).drop (b - 3)).take 2) :
    parse_incoming_data (b :: rest) cmds = parse_incoming_data rest cmds := by
  simp only [parse_incoming_data, List.length_cons, parse_fuel]
  rw [if_neg h5, if_neg hb, if_neg (not_not.mpr hr), if_neg hw,
    if_neg (not_not.mpr ht), if_pos hcrc]

theorem parse_emit {b : Nat} {rest : List Nat} (cmds : List (List Nat))
    (h5 : ¬ rest.length + 1 < MESSAGE_MIN) (hb : b ≠ MESSAGE_SYNC)
    (hr : MESSAGE_MIN ≤ b ∧ b ≤ MESSAGE_MAX) (hw : ¬ rest.length + 1 < b)
    (ht : (b :: rest)[b - 1]? = some MESSAGE_SYNC)
    (hcrc : crc16_ccitt ((b :: rest).take (b - 3)) =
      ((b :: rest).drop (b - 3)).take 2) :
    parse_incoming_data (b :: rest) cmds =
      parse_incoming_data ((b :: rest).drop b)
        (cmds ++ [(b :: rest).take b]) := by
  simp only [parse_incoming_data, List.length_cons, parse_fuel]
  rw [if_neg h5, if_neg hb, if_neg (not_not.mpr hr), if_neg hw,
    if_neg (not_not.mpr ht), if_neg (not_not.mpr hcrc)]
  refine parse_fuel_congr _ _ _ _ ?_ ?_
  · have hb5 : MESSAGE_MIN ≤ b := hr.1
    simp only [MESSAGE_MIN] at hb5
    simp only [List.length_drop, List.length_cons]; omega
  · exact Nat.le_refl _

/-! ## Command encoder

The `send_cmd` decorator wraps each builder's payload into a frame:
prepend the total-length byte `len(msg) + MESSAGE_TRAILER_SIZE + 1`,
append the two CRC bytes over the length byte plus payload, append the
sync terminator, and write the result to the serial device. -/

/-- The frame that `send_cmd`'s wrapper writes for a given builder
payload. -/
def send_cmd_frame (payload : List Nat) : List Nat :=
  let msg := (payload.length + MESSAGE_TRAILER_SIZE + 1) :: payload
  msg ++ crc16_ccitt msg ++ [MESSAGE_SYNC]

/-- `struct.pack('<H', n)`: unsigned 16-bit little-endian. -/
def le16 (n : Nat) : List Nat := [n % 256, n / 256 % 256]

/-- `struct.pack('<L', n)`: unsigned 32-bit little-endian. -/
def le32 (n : Nat) : List Nat :=
  [n % 256, n / 256 % 256, n / 2 ^ 16 % 256, n / 2 ^ 24 % 256]

/-- Payload of `cmd_display_text`: `pack(f'BB{size}s', CMD_DISPLAY_TEXT,
size, text)` with `size = len(text)`. -/
def display_text_payload (text : List Nat) : List Nat :=
  CMD_DISPLAY_TEXT :: text.length :: text

/-- `cmd_display_text(text)`: the frame written to the device. -/
def cmd_display_text (text : List Nat) : List Nat :=
  send_cmd_frame (display_text_payload text)

/-- Payload of `cmd_buzzer_play`: `pack('B?', CMD_BUZZER_PLAY,
cancel_pplay)`. -/
def buzzer_play_payload (cancel_pplay : Bool) : List Nat :=
  [CMD_BUZZER_PLAY, if cancel_pplay then 1 else 0]

/-- `cmd_buzzer_play(cancel_pplay)`: the frame written to the device. -/
def cmd_buzzer_play (cancel_pplay : Bool) : List Nat :=
  send_cmd_frame (buzzer_play_payload cancel_pplay)

/-- Payload of `cmd_buzzer_queue`: `pack('<BBLHH', CMD_BUZZER_QUEUE, 8,
ncycles, hperiod, hperiod)`.  The source derives `ncycles` and `hperiod`
from the float arguments `freq` and `duration`
(`ncycles = max(1, int(freq * duration))`,
`hperiod = int(1_000_000.0 / freq) // 2`); the builder is modelled at the
already-derived integer fields, which is where the packing into the frame
happens. -/
def buzzer_queue_payload (ncycles hperiod : Nat) : List Nat :=
  [CMD_BUZZER_QUEUE, 8] ++ le32 ncycles ++ le16 hperiod ++ le16 hperiod

/-- `cmd_buzzer_queue`: the frame written to the device. -/
def cmd_buzzer_queue (ncycles hperiod : Nat) : List Nat :=
  send_cmd_frame (buzzer_queue_payload ncycles hperiod)

/-! ## Command dispatcher and incoming-event handlers

Incoming frames are popped from `self.in_commands` in FIFO order and
routed through `self.in_cmd_dict`, keyed by the frame's second byte.
Handler side effects are modelled as an explicit list of `Effect`s:
key-event callbacks, feedback tones (the `beep` helper, which writes a
`cmd_buzzer_queue` plus a `cmd_buzzer_play(True)` to the device) and the
unknown-command diagnostic print.  Timestamps (`time()`) are passed in as
rationals.  `struct.unpack` is fallible (it raises on a size mismatch),
hence the `Option` results. -/

inductive Effect where
  | key (name : String) (t : ℚ)
  | beep (freq : ℚ) (dur : ℚ)
  | cmdError
  deriving DecidableEq, Repr

/-- The dispatcher-owned session state (`last_knob_pos`,
`last_btn_state`, `last_btn_time` in the source; `last_knob_time` is
written once at construction and never read, so it is omitted). -/
structure SessState where
  last_knob_pos : Int
  last_btn_state : Nat
  last_btn_time : ℚ
  deriving DecidableEq, Repr

/-- Reinterpret a little-endian 16-bit value as signed (`struct`'s
`h` format). -/
def toSigned16 (n : Nat) : Int :=
  if n % 2 ^ 16 < 2 ^ 15 then ((n % 2 ^ 16 : Nat) : Int)
  else ((n % 2 ^ 16 : Nat) : Int) - 2 ^ 16

/-- `unpack('<BBhhB', data)`: fails unless `data` is exactly 7 bytes. -/
def unpack_BBhhB (data : List Nat) :
    Option (Nat × Nat × Int × Int × Nat) :=
  match data with
  | [a, b, c, d, e, f, g] =>
    some (a, b, toSigned16 (c + 256 * d), toSigned16 (e + 256 * f), g)
  | _ => none

/-- `unpack('<BBBhB', data)`: fails unless `data` is exactly 6 bytes. -/
def unpack_BBBhB (data : List Nat) :
    Option (Nat × Nat × Nat × Int × Nat) :=
  match data with
  | [a, b, c, d, e, f] =>
    some (a, b, c, toSigned16 (d + 256 * e), f)
  | _ => none

/-- The observable effect of `beep(freq, duration)`. -/
def beep_effect (freq dur : ℚ) : List Effect := [Effect.beep freq dur]

/-- `cmd_in_knob_event`. -/
def cmd_in_knob_event (s : SessState) (data : List Nat) (now : ℚ) :
    Option (SessState × List Effect) := do
  let (_, _, pos, _, _) ← unpack_BBhhB data
  let diff := pos - s.last_knob_pos
  let effs :=
    if diff > 0 then Effect.key "down" now :: beep_effect 1000 (1 / 20)
    else if diff < 0 then Effect.key "up" now :: beep_effect 1000 (1 / 20)
    else []
  some ({ s with last_knob_pos := pos }, effs)

/-- `cmd_in_button_event`. -/
def cmd_in_button_event (s : SessState) (data : List Nat) (now : ℚ) :
    Option (SessState × List Effect) := do
  let (_, _, state, _, _) ← unpack_BBBhB data
  if state = 1 ∧ s.last_btn_state = 0 then
    some ({ s with last_btn_state := state, last_btn_time := now }, [])
  else if state = 0 ∧ s.last_btn_state = 1 then
    let dt := now - s.last_btn_time
    if dt ≥ 1 then
      some ({ s with last_btn_state := state }, [Effect.key "long_click" now])
    else
      some ({ s with last_btn_state := state },
        Effect.key "click" now :: beep_effect 400 (1 / 20))
  else
    some ({ s with last_btn_state := state }, [])

/-- `cmd_in_buzzer_event`: unpacks and does nothing. -/
def cmd_in_buzzer_event (s : SessState) (data : List Nat) (_now : ℚ) :
    Option (SessState × List Effect) := do
  let _ ← unpack_BBBhB data
  some (s, [])

/-- One iteration of `dispatch_in_commands`: look the frame's
`command_id` (`cmd[1]`) up in `in_cmd_dict` and call the handler, or
print the incoming-command error. -/
def dispatch_step (s : SessState) (cmd : List Nat) (now : ℚ) :
    Option (SessState × List Effect) :=
  match cmd[1]? with
  | none => none
  | some cmd_id =>
    if cmd_id = CMD_KNOB_EVENT then cmd_in_knob_event s cmd now
    else if cmd_id = CMD_BUTTON_EVENT then cmd_in_button_event s cmd now
    else if cmd_id = CMD_BUZZER_EVENT then cmd_in_buzzer_event s cmd now
    else some (s, [Effect.cmdError])

/-- `dispatch_in_commands`: drain the queued frames front-first.  Each
frame is paired with the `time()` value its handler observes. -/
def dispatch_in_commands (s : SessState) :
    List (List Nat × ℚ) → Option (SessState × List Effect)
  | [] => some (s, [])
  | (cmd, t) :: rest => do
    let (s1, e1) ← dispatch_step s cmd t
    let (s2, e2) ← dispatch_in_commands s1 rest
    pure (s2, e1 ++ e2)

/-- The key-event names delivered to `menu_key_callback`, in order. -/
def keyNames (effs : List Effect) : List String :=
  effs.filterMap fun e =>
    match e with
    | Effect.key n _ => some n
    | _ => none

/-! ## Frame validity and round-trip helpers -/

/-- The spec's `Frame` invariant (§3): the head byte is the total frame
size, within `[MESSAGE_MIN, MESSAGE_MAX]`; the final byte is the sync
constant; the two bytes before it are the CRC engine's output over
everything before them. -/
def ValidFrame (f : List Nat) : Prop :=
  MESSAGE_MIN ≤ f.length ∧ f.length ≤ MESSAGE_MAX ∧
    f[0]? = some f.length ∧ f[f.length - 1]? = some MESSAGE_SYNC ∧
    crc16_ccitt (f.take (f.length - 3)) = (f.drop (f.length - 3)).take 2

instance (f : List Nat) : Decidable (ValidFrame f) := by
  unfold ValidFrame; infer_instance

/-- A whole valid frame whose length byte is not the sync constant is
consumed in one emit step: the decoder removes exactly its bytes and
appends exactly it to the command queue. -/
theorem parse_whole_valid {f : List Nat} (cmds : List (List Nat))
    (hv : ValidFrame f) (hs : f.length ≠ MESSAGE_SYNC) :
    parse_incoming_data f cmds = ([], cmds ++ [f]) := by
  obtain ⟨hmin, hmax, h0, hterm, hcrc⟩ := hv
  match f with
  | [] => simp at h0
  | b :: rest =>
    have hb : b = rest.length + 1 := by
      simp only [List.getElem?_cons_zero, List.length_cons] at h0
      exact Option.some_injective _ h0
    subst hb
    simp only [List.length_cons, MESSAGE_MIN, MESSAGE_MAX, MESSAGE_SYNC]
      at hmin hmax hs
    rw [parse_emit cmds (by simp only [MESSAGE_MIN]; omega)
      (by simp only [MESSAGE_SYNC]; omega)
      (by simp only [MESSAGE_MIN, MESSAGE_MAX]; omega) (by omega)
      (by simpa using hterm) (by simpa using hcrc)]
    have hd : List.drop (rest.length + 1) ((rest.length + 1) :: rest) = [] := by
      simp [List.drop_succ_cons, List.drop_length]
    have ht : List.take (rest.length + 1) ((rest.length + 1) :: rest) =
        (rest.length + 1) :: rest := by
      simp [List.take_succ_cons, List.take_length]
    rw [hd, ht]
    exact parse_small _ (by simp [MESSAGE_MIN])

/-- A proper prefix of such a frame is left untouched by the decoder:
either it is below the minimum size, or its head byte announces more
bytes than are buffered, which is the loop's only suspension point. -/
theorem parse_prefix_inert {f : List Nat} (cmds : List (List Nat))
    (hv : ValidFrame f) (hs : f.length ≠ MESSAGE_SYNC) {k : Nat}
    (hk : k < f.length) :
    parse_incoming_data (f.take k) cmds = (f.take k, cmds) := by
  obtain ⟨hmin, hmax, h0, hterm, hcrc⟩ := hv
  simp only [MESSAGE_MIN, MESSAGE_MAX, MESSAGE_SYNC] at hmin hmax hs
  have hlen : (f.take k).length = k := by
    simp only [List.length_take]; omega
  by_cases hsmall : k < 5
  · exact parse_small cmds (by rw [hlen]; simpa [MESSAGE_MIN] using hsmall)
  · cases hft : f.take k with
    | nil => rw [hft] at hlen; simp at hlen; omega
    | cons b rest =>
      have hb : b = f.length := by
        have hb0 : (f.take k)[0]? = some b := by rw [hft]; simp
        rw [List.getElem?_take, if_pos (by omega), h0] at hb0
        exact (Option.some_injective _ hb0).symm
      have hrl : rest.length + 1 = k := by
        rw [hft] at hlen; simpa using hlen
      exact parse_wait cmds (by simp only [MESSAGE_MIN]; omega)
        (by simp only [MESSAGE_SYNC]; omega)
        (by simp only [MESSAGE_MIN, MESSAGE_MAX]; omega) (by omega)

/-- `crc16_ccitt` always returns exactly two bytes. -/
theorem crc16_ccitt_eq (l : List Nat) :
    crc16_ccitt l = [crc16_acc l >>> 8, crc16_acc l &&& 0xff] := rfl

/-- The encoder's frame, written as cons/append of its regions. -/
theorem send_cmd_frame_eq (payload : List Nat) :
    send_cmd_frame payload =
      ((payload.length + MESSAGE_TRAILER_SIZE + 1) :: payload) ++
        (crc16_ccitt ((payload.length + MESSAGE_TRAILER_SIZE + 1) :: payload) ++
          [MESSAGE_SYNC]) := by
  simp only [send_cmd_frame, List.append_assoc]

theorem send_cmd_frame_length (payload : List Nat) :
    (send_cmd_frame payload).length = payload.length + 4 := by
  rw [send_cmd_frame_eq, crc16_ccitt_eq]
  simp only [List.length_append, List.length_cons, List.length_nil,
    MESSAGE_TRAILER_SIZE]
  try omega

/-- Every encoder output whose length byte is in range is a valid frame
in the spec's sense. -/
theorem send_cmd_frame_valid (payload : List Nat)
    (h1 : 1 ≤ payload.length) (h2 : payload.length + 4 ≤ MESSAGE_MAX) :
    ValidFrame (send_cmd_frame payload) := by
  have hL : (send_cmd_frame payload).length = payload.length + 4 :=
    send_cmd_frame_length payload
  refine ⟨?_, ?_, ?_, ?_, ?_⟩
  · rw [hL]; simp only [MESSAGE_MIN]; omega
  · rw [hL]; exact h2
  · rw [hL, send_cmd_frame_eq]
    simp [MESSAGE_TRAILER_SIZE]
  · rw [hL, send_cmd_frame_eq, crc16_ccitt_eq]
    rw [List.getElem?_append_right (by simp [MESSAGE_TRAILER_SIZE])]
    simp only [List.length_cons, List.cons_append, List.nil_append]
    rw [show payload.length + 4 - 1 - (payload.length + 1) = 2 from by omega]
    rfl
  · rw [hL, send_cmd_frame_eq]
    rw [show payload.length + 4 - 3 = payload.length + 1 from by omega]
    rw [List.take_left' (by simp [MESSAGE_TRAILER_SIZE]),
      List.drop_left' (by simp [MESSAGE_TRAILER_SIZE])]
    rw [crc16_ccitt_eq]
    simp

/-- Feeding a valid, non-sync-length frame whole through the decoder
emits exactly that frame. -/
theorem send_cmd_frame_parses (payload : List Nat) (cmds : List (List Nat))
    (h1 : 1 ≤ payload.length) (h2 : payload.length + 4 ≤ MESSAGE_MAX)
    (h3 : payload.length + 4 ≠ MESSAGE_SYNC) :
    parse_incoming_data (send_cmd_frame payload) cmds =
      ([], cmds ++ [send_cmd_frame payload]) :=
  parse_whole_valid cmds (send_cmd_frame_valid payload h1 h2)
    (by rw [send_cmd_frame_length]; exact h3)

/-! ## Chunked delivery

`read_process` appends whatever bytes arrive to `self.rdata` and then
runs `parse_incoming_data`; a frame may thus be delivered across many
append-then-parse cycles.  `feed_chunks` folds that cycle over a list of
byte chunks. -/

def feed_chunks (chunks : List (List Nat))
    (st : List Nat × List (List Nat)) : List Nat × List (List Nat) :=
  chunks.foldl (fun s c => parse_incoming_data (s.1 ++ c) s.2) st

theorem feed_chunks_nil_chunks :
    ∀ (chunks : List (List Nat)) (cmds : List (List Nat)),
      chunks.flatten = [] → feed_chunks chunks ([], cmds) = ([], cmds) := by
  intro chunks
  induction chunks with
  | nil => intro cmds _; rfl
  | cons c cs ih =>
    intro cmds h
    simp only [List.flatten_cons, List.append_eq_nil] at h
    simp only [feed_chunks, List.foldl_cons, h.1, List.append_nil,
      List.nil_append]
    have : parse_incoming_data [] cmds = ([], cmds) :=
      parse_small cmds (by simp [MESSAGE_MIN])
    rw [this]
    exact ih cmds h.2

/-- Core induction for split delivery: with a proper prefix of a valid
frame already buffered, feeding the remaining chunks ends with the frame
emitted and the buffer empty. -/
theorem feed_chunks_aux {f : List Nat} (hv : ValidFrame f)
    (hs : f.length ≠ MESSAGE_SYNC) :
    ∀ (chunks : List (List Nat)) (pre : List Nat) (cmds : List (List Nat)),
      pre ++ chunks.flatten = f → pre.length < f.length →
      feed_chunks chunks (pre, cmds) = ([], cmds ++ [f]) := by
  intro chunks
  induction chunks with
  | nil =>
    intro pre cmds hflat hlt
    simp only [List.flatten_nil, List.append_nil] at hflat
    rw [hflat] at hlt
    omega
  | cons c cs ih =>
    intro pre cmds hflat hlt
    simp only [List.flatten_cons] at hflat
    rw [← List.append_assoc] at hflat
    simp only [feed_chunks, List.foldl_cons]
    rcases Nat.lt_or_ge (pre ++ c).length f.length with hcase | hcase
    · have hpre : pre ++ c = f.take (pre ++ c).length := by
        conv_rhs => rw [← hflat]
        rw [List.take_left]
      rw [show parse_incoming_data (pre ++ c) cmds = (pre ++ c, cmds) by
        rw [hpre]; exact parse_prefix_inert cmds hv hs hcase]
      exact ih (pre ++ c) cmds hflat hcase
    · have hflen : f.length = (pre ++ c).length + cs.flatten.length := by
        rw [← hflat]; simp [List.length_append]; try omega
      have hflat0 : cs.flatten.length = 0 := by omega
      have hpc : pre ++ c = f := by
        have : cs.flatten = [] := List.length_eq_zero.mp hflat0
        rw [this, List.append_nil] at hflat
        exact hflat
      rw [hpc, parse_whole_valid cmds hv hs]
      exact feed_chunks_nil_chunks cs (cmds ++ [f])
        (List.length_eq_zero.mp hflat0)

/-- For byte input the source's unbounded-integer CRC equals the spec's
wrapping 16-bit CRC. -/
theorem crc16_ccitt_eq_spec (buf : List Nat) (h : ∀ x ∈ buf, x < 2 ^ 8) :
    crc16_ccitt buf = crc16_ccitt_spec buf := by
  have he := (crc16_foldl_lt_and_eq_spec buf 0xffff (by norm_num) h).2
  simp only [crc16_ccitt, crc16_ccitt_spec, crc16_acc, he]

/-! ## Claim theorems -/

/-- C3: `crc16_ccitt` computes, for every byte sequence, exactly the
algorithm the spec states — `crc = 0xFFFF`, then per byte
`b ^= crc & 0xFF`; `b ^= (b & 0x0F) << 4`;
`crc = ((b << 8) | (crc >> 8)) ^ (b >> 4) ^ (b << 3)` in wrapping 16-bit
arithmetic — and returns the two result bytes most-significant first; the
empty sequence yields `0xFFFF`, i.e. bytes `[0xFF, 0xFF]`.  (It is a pure
function of its input, so determinism is inherent in the model.) -/
theorem C3_crc16_matches_spec_algorithm :
    (∀ buf : List Nat, (∀ x ∈ buf, x < 2 ^ 8) →
      crc16_ccitt buf = crc16_ccitt_spec buf) ∧
    (∀ buf : List Nat,
      crc16_ccitt buf = [crc16_acc buf >>> 8, crc16_acc buf &&& 0xff]) ∧
    crc16_ccitt [] = [0xff, 0xff] :=
  ⟨crc16_ccitt_eq_spec, crc16_ccitt_eq, rfl⟩

/-- C3 witness: the wrapping-arithmetic reading and the source agree on a
concrete byte sequence. -/
theorem C3_witness :
    crc16_ccitt [49, 50, 51] = crc16_ccitt_spec [49, 50, 51] :=
  C3_crc16_matches_spec_algorithm.1 [49, 50, 51] (by decide)

/-- C10: although the source never masks the accumulator to 16 bits, for
byte input every intermediate accumulator value stays below `2^16`, both
returned bytes are below `2^8`, and the unbounded-integer implementation
therefore coincides with the spec's wrapping 16-bit arithmetic. -/
theorem C10_crc16_accumulator_bounded :
    ∀ buf : List Nat, (∀ x ∈ buf, x < 2 ^ 8) →
      (∀ p q : List Nat, buf = p ++ q →
        List.foldl crc16_step 0xffff p < 2 ^ 16) ∧
      (∀ v ∈ crc16_ccitt buf, v < 2 ^ 8) ∧
      crc16_ccitt buf = crc16_ccitt_spec buf := by
  intro buf h
  refine ⟨?_, ?_, crc16_ccitt_eq_spec buf h⟩
  · intro p q hpq
    refine (crc16_foldl_lt_and_eq_spec p 0xffff (by norm_num) ?_).1
    intro x hx
    exact h x (hpq ▸ List.mem_append_left q hx)
  · have hacc : crc16_acc buf < 2 ^ 16 := crc16_acc_lt buf h
    intro v hv
    rw [crc16_ccitt_eq] at hv
    have h1 : crc16_acc buf >>> 8 < 2 ^ 8 := by
      rw [Nat.shiftRight_eq_div_pow]
      refine Nat.div_lt_of_lt_mul ?_
      calc crc16_acc buf < 2 ^ 16 := hacc
        _ = 2 ^ 8 * 2 ^ 8 := by norm_num
    have h2 : crc16_acc buf &&& 0xff < 2 ^ 8 :=
      and_lt_pow_right (by norm_num)
    simp only [List.mem_cons, List.not_mem_nil, or_false] at hv
    rcases hv with hv | hv <;> subst hv
    · exact h1
    · exact h2

/-- C10 witness: a concrete intermediate accumulator value is in
bounds. -/
theorem C10_witness : List.foldl crc16_step 0xffff [1, 2] < 2 ^ 16 :=
  (C10_crc16_accumulator_bounded [1, 2, 3] (by decide)).1 [1, 2] [3] rfl

/-- The wire layout of an encoded frame relative to its builder payload:
a total-length byte equal to `payload_len + trailer_size + 1`, the
payload bytes, the two CRC bytes over the length byte plus payload, and
the sync terminator as the final byte. -/
def FrameLayout (payload fr : List Nat) : Prop :=
  fr.length = payload.length + MESSAGE_TRAILER_SIZE + 1 ∧
    fr[0]? = some (payload.length + MESSAGE_TRAILER_SIZE + 1) ∧
    (fr.drop 1).take payload.length = payload ∧
    (fr.drop (payload.length + 1)).take 2 =
      crc16_ccitt (fr.take (payload.length + 1)) ∧
    fr[fr.length - 1]? = some MESSAGE_SYNC

theorem frame_layout_send (payload : List Nat) :
    FrameLayout payload (send_cmd_frame payload) := by
  have hL : (send_cmd_frame payload).length = payload.length + 4 :=
    send_cmd_frame_length payload
  refine ⟨?_, ?_, ?_, ?_, ?_⟩
  · rw [hL]; simp [MESSAGE_TRAILER_SIZE]
  · rw [send_cmd_frame_eq]; simp
  · rw [send_cmd_frame_eq]
    simp only [List.cons_append, List.drop_succ_cons, List.drop_zero]
    exact List.take_left' rfl
  · rw [send_cmd_frame_eq]
    rw [List.take_left' (by simp [MESSAGE_TRAILER_SIZE]),
      List.drop_left' (by simp [MESSAGE_TRAILER_SIZE])]
    rw [crc16_ccitt_eq]
    simp
  · rw [hL, send_cmd_frame_eq, crc16_ccitt_eq]
    rw [List.getElem?_append_right (by simp [MESSAGE_TRAILER_SIZE])]
    simp only [List.length_cons, List.cons_append, List.nil_append]
    rw [show payload.length + 4 - 1 - (payload.length + 1) = 2 from by omega]
    rfl

/-- C2: every frame written by the encoder — for any payload, and in
particular for every invocation of the three command builders — is, in
order, the total-length byte `payload_len + trailer_size + 1`, the
payload bytes, the two CRC bytes over the length byte plus payload
(most-significant first, as `crc16_ccitt` returns them), and the sync
terminator `0x7E`. -/
theorem C2_encoded_frame_layout :
    (∀ payload : List Nat, FrameLayout payload (send_cmd_frame payload)) ∧
    (∀ text : List Nat,
      FrameLayout (display_text_payload text) (cmd_display_text text)) ∧
    (∀ c : Bool,
      FrameLayout (buzzer_play_payload c) (cmd_buzzer_play c)) ∧
    (∀ ncycles hperiod : Nat,
      FrameLayout (buzzer_queue_payload ncycles hperiod)
        (cmd_buzzer_queue ncycles hperiod)) :=
  ⟨frame_layout_send, fun _ => frame_layout_send _,
    fun _ => frame_layout_send _, fun _ _ => frame_layout_send _⟩

/-- C1 counterexample: `cmd_display_text` on a 120-byte text yields a
frame whose length byte is 126 — the sync constant — so the decoder
drops it as an inter-frame separator and emits no frame at all, refuting
the round-trip for this builder input. -/
theorem C1_counterexample :
    (parse_incoming_data (cmd_display_text (List.replicate 120 0)) []).2
      = [] := by
  decide

/-- C1 (amended): encoding a command with any of the three builders and
feeding the bytes to an initially empty decoder buffer yields exactly
that frame, with the original command id and payload bytes at their wire
offsets — unconditionally for `cmd_buzzer_play` and `cmd_buzzer_queue`,
and for `cmd_display_text` provided the text length is at most 122 and
not exactly 120 (so that the frame's length byte stays within
`[MESSAGE_MIN, MESSAGE_MAX]` and differs from the sync constant). -/
theorem C1_encode_decode_identity :
    (∀ text : List Nat, text.length ≤ 122 → text.length ≠ 120 →
      parse_incoming_data (cmd_display_text text) [] =
        ([], [cmd_display_text text]) ∧
      (cmd_display_text text)[1]? = some CMD_DISPLAY_TEXT ∧
      ((cmd_display_text text).drop 2).take (text.length + 1) =
        text.length :: text) ∧
    (∀ c : Bool,
      parse_incoming_data (cmd_buzzer_play c) [] =
        ([], [cmd_buzzer_play c]) ∧
      (cmd_buzzer_play c)[1]? = some CMD_BUZZER_PLAY ∧
      (cmd_buzzer_play c)[2]? = some (if c then 1 else 0)) ∧
    (∀ ncycles hperiod : Nat,
      parse_incoming_data (cmd_buzzer_queue ncycles hperiod) [] =
        ([], [cmd_buzzer_queue ncycles hperiod]) ∧
      (cmd_buzzer_queue ncycles hperiod)[1]? = some CMD_BUZZER_QUEUE ∧
      ((cmd_buzzer_queue ncycles hperiod).drop 2).take 9 =
        8 :: (le32 ncycles ++ le16 hperiod ++ le16 hperiod)) := by
  refine ⟨?_, ?_, ?_⟩
  · intro text h1 h2
    have hpl : (display_text_payload text).length = text.length + 2 := by
      simp [display_text_payload]
    refine ⟨?_, rfl, ?_⟩
    · apply send_cmd_frame_parses
      · rw [hpl]; omega
      · rw [hpl]; simp only [MESSAGE_MAX]; omega
      · rw [hpl]; simp only [MESSAGE_SYNC]; omega
    · simp only [cmd_display_text]
      rw [send_cmd_frame_eq]
      simp only [display_text_payload, List.cons_append,
        List.drop_succ_cons, List.drop_zero]
      rw [List.take_succ_cons, List.take_left]
  · intro c
    refine ⟨?_, rfl, ?_⟩
    · apply send_cmd_frame_parses
      · simp [buzzer_play_payload]
      · simp [buzzer_play_payload, MESSAGE_MAX]
      · simp [buzzer_play_payload, MESSAGE_SYNC]
    · cases c <;> rfl
  · intro nc hp
    refine ⟨?_, rfl, rfl⟩
    apply send_cmd_frame_parses
    · simp [buzzer_queue_payload, le32, le16]
    · simp [buzzer_queue_payload, le32, le16, MESSAGE_MAX]
    · simp [buzzer_queue_payload, le32, le16, MESSAGE_SYNC]

/-- C1 witness: a concrete display-text round trip through encoder and
decoder. -/
theorem C1_witness :
    parse_incoming_data (cmd_display_text [72, 105]) [] =
      ([], [cmd_display_text [72, 105]]) :=
  (C1_encode_decode_identity.1 [72, 105] (by decide) (by decide)).1

/-- A buffer of sync bytes only is drained without emitting anything. -/
theorem parse_all_sync :
    ∀ (rdata : List Nat) (cmds : List (List Nat)),
      (∀ x ∈ rdata, x = MESSAGE_SYNC) →
      (parse_incoming_data rdata cmds).2 = cmds ∧
        (parse_incoming_data rdata cmds).1.length < MESSAGE_MIN := by
  intro rdata
  induction rdata with
  | nil =>
    intro cmds _
    rw [parse_small cmds (by simp [MESSAGE_MIN])]
    exact ⟨rfl, by simp [MESSAGE_MIN]⟩
  | cons b rest ih =>
    intro cmds hmem
    by_cases h5 : rest.length + 1 < MESSAGE_MIN
    · rw [parse_small cmds (by simpa using h5)]
      exact ⟨rfl, by simpa using h5⟩
    · have hb : b = MESSAGE_SYNC := hmem b (by simp)
      subst hb
      rw [parse_sync_drop cmds h5]
      exact ih cmds fun x hx => hmem x (by simp [hx])

/-- A buffer of out-of-range length bytes only is drained without
emitting anything. -/
theorem parse_all_bad_range :
    ∀ (rdata : List Nat) (cmds : List (List Nat)),
      (∀ x ∈ rdata, ¬ (MESSAGE_MIN ≤ x ∧ x ≤ MESSAGE_MAX)) →
      (parse_incoming_data rdata cmds).2 = cmds ∧
        (parse_incoming_data rdata cmds).1.length < MESSAGE_MIN := by
  intro rdata
  induction rdata with
  | nil =>
    intro cmds _
    rw [parse_small cmds (by simp [MESSAGE_MIN])]
    exact ⟨rfl, by simp [MESSAGE_MIN]⟩
  | cons b rest ih =>
    intro cmds hmem
    by_cases h5 : rest.length + 1 < MESSAGE_MIN
    · rw [parse_small cmds (by simpa using h5)]
      exact ⟨rfl, by simpa using h5⟩
    · have hb : b ≠ MESSAGE_SYNC := by
        intro hbe
        refine hmem b (by simp) ?_
        rw [hbe]
        simp [MESSAGE_MIN, MESSAGE_MAX, MESSAGE_SYNC]
      rw [parse_bad_range cmds h5 hb (hmem b (by simp))]
      exact ih cmds fun x hx => hmem x (by simp [hx])

/-- C4: whenever at least `MESSAGE_MIN` bytes are buffered, one decoder
iteration either removes at least one byte from the head (possibly
emitting one frame) or stops only because the head candidate length
exceeds the number of buffered bytes; consequently a buffer of only sync
bytes, or of only bytes outside `[MESSAGE_MIN, MESSAGE_MAX]`, never
emits a frame and is consumed down to fewer than `MESSAGE_MIN` bytes. -/
theorem C4_decoder_progress :
    (∀ (rdata : List Nat) (cmds : List (List Nat)),
      MESSAGE_MIN ≤ rdata.length →
      (∃ (n : Nat) (cmds2 : List (List Nat)), 1 ≤ n ∧
        parse_incoming_data rdata cmds =
          parse_incoming_data (rdata.drop n) cmds2 ∧
        (cmds2 = cmds ∨ ∃ fr, cmds2 = cmds ++ [fr])) ∨
      (∃ b : Nat, rdata[0]? = some b ∧ b ≠ MESSAGE_SYNC ∧
        MESSAGE_MIN ≤ b ∧ b ≤ MESSAGE_MAX ∧ rdata.length < b ∧
        parse_incoming_data rdata cmds = (rdata, cmds))) ∧
    (∀ (rdata : List Nat) (cmds : List (List Nat)),
      (∀ x ∈ rdata, x = MESSAGE_SYNC) →
      (parse_incoming_data rdata cmds).2 = cmds ∧
        (parse_incoming_data rdata cmds).1.length < MESSAGE_MIN) ∧
    (∀ (rdata : List Nat) (cmds : List (List Nat)),
      (∀ x ∈ rdata, ¬ (MESSAGE_MIN ≤ x ∧ x ≤ MESSAGE_MAX)) →
      (parse_incoming_data rdata cmds).2 = cmds ∧
        (parse_incoming_data rdata cmds).1.length < MESSAGE_MIN) := by
  refine ⟨?_, parse_all_sync, parse_all_bad_range⟩
  intro rdata cmds h
  match rdata with
  | [] => simp [MESSAGE_MIN] at h
  | b :: rest =>
    have h5 : ¬ rest.length + 1 < MESSAGE_MIN := by
      simp only [List.length_cons] at h; omega
    by_cases hb : b = MESSAGE_SYNC
    · left
      refine ⟨1, cmds, Nat.le_refl 1, ?_, Or.inl rfl⟩
      subst hb
      rw [parse_sync_drop cmds h5]
      simp
    by_cases hr : MESSAGE_MIN ≤ b ∧ b ≤ MESSAGE_MAX
    · by_cases hw : rest.length + 1 < b
      · right
        exact ⟨b, by simp, hb, hr.1, hr.2, by simpa using hw,
          parse_wait cmds h5 hb hr hw⟩
      by_cases ht : (b :: rest)[b - 1]? = some MESSAGE_SYNC
      · by_cases hcrc : crc16_ccitt ((b :: rest).take (b - 3)) =
            ((b :: rest).drop (b - 3)).take 2
        · left
          refine ⟨b, cmds ++ [(b :: rest).take b], ?_, ?_, Or.inr ⟨_, rfl⟩⟩
          · have := hr.1; simp only [MESSAGE_MIN] at this; omega
          · exact parse_emit cmds h5 hb hr hw ht hcrc
        · left
          refine ⟨1, cmds, Nat.le_refl 1, ?_, Or.inl rfl⟩
          rw [parse_bad_crc cmds h5 hb hr hw ht hcrc]
          simp
      · left
        refine ⟨1, cmds, Nat.le_refl 1, ?_, Or.inl rfl⟩
        rw [parse_bad_term cmds h5 hb hr hw ht]
        simp
    · left
      refine ⟨1, cmds, Nat.le_refl 1, ?_, Or.inl rfl⟩
      rw [parse_bad_range cmds h5 hb hr]
      simp

/-- C4 witness: a buffer of five sync bytes emits nothing and drains
below the minimum frame size. -/
theorem C4_witness :
    (parse_incoming_data [126, 126, 126, 126, 126] []).2 = [] ∧
      (parse_incoming_data [126, 126, 126, 126, 126] []).1.length <
        MESSAGE_MIN :=
  C4_decoder_progress.2.1 [126, 126, 126, 126, 126] [] (by decide)

/-- C5 counterexample: corrupting one payload byte of a valid
`cmd_buzzer_play` frame and appending an uncorrupted copy leaves the
decoder stalled after the one-byte slide — a mid-frame byte (14) is a
plausible length exceeding the remaining buffer — so the appended valid
frame is never emitted. -/
theorem C5_counterexample :
    ValidFrame (cmd_buzzer_play true) ∧
      (parse_incoming_data
        ((cmd_buzzer_play true).set 2 0 ++ cmd_buzzer_play true) []).2
        = [] :=
  ⟨by decide, by decide⟩

/-- C5 (amended): when a candidate frame passes the length-range and
terminator checks but its CRC check fails, the decoder removes exactly
one byte from the head and rescans; for a corrupted frame followed by a
valid one this recovers the valid frame whenever the slid-by-one scan
never treats a mid-frame byte as a plausible length that exceeds the
buffered byte count (concretely proved for a corrupted
`cmd_display_text [8]` frame followed by an uncorrupted one) — but it
can also stall as in the counterexample. -/
theorem C5_crc_mismatch_slides_one_byte :
    (∀ (b : Nat) (rest : List Nat) (cmds : List (List Nat)),
      ¬ rest.length + 1 < MESSAGE_MIN → b ≠ MESSAGE_SYNC →
      MESSAGE_MIN ≤ b ∧ b ≤ MESSAGE_MAX → ¬ rest.length + 1 < b →
      (b :: rest)[b - 1]? = some MESSAGE_SYNC →
      crc16_ccitt ((b :: rest).take (b - 3)) ≠
        ((b :: rest).drop (b - 3)).take 2 →
      parse_incoming_data (b :: rest) cmds =
        parse_incoming_data rest cmds) ∧
    parse_incoming_data
        ((cmd_display_text [8]).set 3 0 ++ cmd_display_text [8]) [] =
      ([], [cmd_display_text [8]]) :=
  ⟨fun _ _ cmds h1 h2 h3 h4 h5 h6 => parse_bad_crc cmds h1 h2 h3 h4 h5 h6,
    by decide⟩

/-- C5 witness: the one-byte slide on a concrete CRC-mismatched
buffer. -/
theorem C5_witness :
    parse_incoming_data [6, 14, 0, 100, 115, 126] [] =
      parse_incoming_data [14, 0, 100, 115, 126] [] :=
  C5_crc_mismatch_slides_one_byte.1 6 [14, 0, 100, 115, 126] []
    (by decide) (by decide) (by decide) (by decide) (by decide) (by decide)

/-- A structurally valid frame (per the spec's Frame invariant) whose
total length is 126; its length byte collides with the sync constant. -/
def sync_length_frame : List Nat :=
  (126 :: List.replicate 122 0) ++
    crc16_ccitt (126 :: List.replicate 122 0) ++ [126]

/-- C6 counterexample: a valid frame of total length 126 is never
emitted even when fed whole — the decoder discards its length byte as an
inter-frame sync separator — so split and whole feeding cannot yield
"the same single emitted frame" for it. -/
theorem C6_counterexample :
    ValidFrame sync_length_frame ∧ sync_length_frame.length = 126 ∧
      (parse_incoming_data sync_length_frame []).2 = [] :=
  ⟨by decide, by decide, by decide⟩

/-- C6 (amended): for every valid frame whose total length differs from
the sync constant 126, feeding its bytes split arbitrarily across
append-then-parse cycles yields exactly the same single emitted frame
and the same (empty) final buffer as feeding all bytes at once. -/
theorem C6_split_delivery (f : List Nat) (chunks : List (List Nat))
    (cmds : List (List Nat)) (hv : ValidFrame f)
    (hs : f.length ≠ MESSAGE_SYNC) (hc : chunks.flatten = f) :
    feed_chunks chunks ([], cmds) = ([], cmds ++ [f]) ∧
      parse_incoming_data f cmds = ([], cmds ++ [f]) := by
  have hlen : 0 < f.length := by
    have hmin := hv.1
    simp only [MESSAGE_MIN] at hmin
    omega
  exact ⟨feed_chunks_aux hv hs chunks [] cmds (by simpa using hc)
    (by simpa using hlen), parse_whole_valid cmds hv hs⟩

/-- C6 witness: a concrete frame delivered one byte at a time. -/
theorem C6_witness :
    feed_chunks [[6], [14], [1], [100], [115], [126]] ([], []) =
      ([], [cmd_buzzer_play true]) :=
  (C6_split_delivery (cmd_buzzer_play true)
    [[6], [14], [1], [100], [115], [126]] [] (by decide) (by decide)
    (by decide)).1

/-- C7: for every dispatched knob-event frame, a position greater than
`last_knob_pos` emits "down" with a 1000 Hz, 0.05 s tone, a smaller one
emits "up" with the same tone, an equal one emits nothing, and
`last_knob_pos` is always updated; the position sequence
`[0, 3, 3, 1]` from `last_knob_pos = 0` yields exactly
`["down", "up"]`. -/
theorem C7_knob_event :
    (∀ (s : SessState) (now : ℚ) (sz p0 p1 c0 c1 sy : Nat),
      cmd_in_knob_event s [sz, CMD_KNOB_EVENT, p0, p1, c0, c1, sy] now =
        some ({ s with last_knob_pos := toSigned16 (p0 + 256 * p1) },
          if s.last_knob_pos < toSigned16 (p0 + 256 * p1) then
            [Effect.key "down" now, Effect.beep 1000 (1 / 20)]
          else if toSigned16 (p0 + 256 * p1) < s.last_knob_pos then
            [Effect.key "up" now, Effect.beep 1000 (1 / 20)]
          else [])) ∧
    (dispatch_in_commands ⟨0, 0, 0⟩
        [([7, 12, 0, 0, 0, 0, 126], 0), ([7, 12, 3, 0, 0, 0, 126], 1),
         ([7, 12, 3, 0, 0, 0, 126], 2), ([7, 12, 1, 0, 0, 0, 126], 3)]
      |>.map fun p => (p.1.last_knob_pos, keyNames p.2)) =
        some (1, ["down", "up"]) := by
  constructor
  · intro s now sz p0 p1 c0 c1 sy
    simp only [cmd_in_knob_event, unpack_BBhhB, beep_effect,
      Option.bind_eq_bind, Option.some_bind, gt_iff_lt, sub_pos, sub_neg]
  · decide

/-- C8: for every dispatched button-event frame, a 0-to-1 transition
records the press time and emits nothing; a 1-to-0 transition emits
"long_click" if at least 1.0 s elapsed since the press (boundary
inclusive) and otherwise "click" with a 400 Hz, 0.05 s tone; an
unchanged state emits nothing; `last_btn_state` is always updated.
Press at t=0 with release at t=0.5 clicks, at t=1.2 long-clicks, and at
exactly t=1.0 long-clicks. -/
theorem C8_button_event :
    (∀ (s : SessState) (now : ℚ) (sz c0 c1 sy : Nat),
      s.last_btn_state = 0 →
      cmd_in_button_event s [sz, CMD_BUTTON_EVENT, 1, c0, c1, sy] now =
        some ({ s with last_btn_state := 1, last_btn_time := now }, [])) ∧
    (∀ (s : SessState) (now : ℚ) (sz c0 c1 sy : Nat),
      s.last_btn_state = 1 →
      cmd_in_button_event s [sz, CMD_BUTTON_EVENT, 0, c0, c1, sy] now =
        some ({ s with last_btn_state := 0 },
          if now - s.last_btn_time ≥ 1 then [Effect.key "long_click" now]
          else [Effect.key "click" now, Effect.beep 400 (1 / 20)])) ∧
    (∀ (s : SessState) (now : ℚ) (sz st c0 c1 sy : Nat),
      st = s.last_btn_state →
      cmd_in_button_event s [sz, CMD_BUTTON_EVENT, st, c0, c1, sy] now =
        some ({ s with last_btn_state := st }, [])) ∧
    ((dispatch_in_commands ⟨0, 0, 0⟩
        [([6, 13, 1, 0, 0, 126], 0), ([6, 13, 0, 0, 0, 126], 1 / 2)]
      |>.map fun p => keyNames p.2) = some ["click"]) ∧
    ((dispatch_in_commands ⟨0, 0, 0⟩
        [([6, 13, 1, 0, 0, 126], 0), ([6, 13, 0, 0, 0, 126], 6 / 5)]
      |>.map fun p => keyNames p.2) = some ["long_click"]) ∧
    ((dispatch_in_commands ⟨0, 0, 0⟩
        [([6, 13, 1, 0, 0, 126], 0), ([6, 13, 0, 0, 0, 126], 1)]
      |>.map fun p => keyNames p.2) = some ["long_click"]) := by
  refine ⟨?_, ?_, ?_, ?_, ?_, ?_⟩
  · intro s now sz c0 c1 sy hlast
    simp [cmd_in_button_event, unpack_BBBhB, beep_effect, hlast]
  · intro s now sz c0 c1 sy hlast
    by_cases hdt : now - s.last_btn_time ≥ 1 <;>
      simp [cmd_in_button_event, unpack_BBBhB, beep_effect, hlast, hdt]
  · intro s now sz st c0 c1 sy hst
    subst hst
    simp only [cmd_in_button_event, unpack_BBBhB, beep_effect,
      Option.bind_eq_bind, Option.some_bind]
    rw [if_neg (by rintro ⟨h1, h2⟩; omega),
      if_neg (by rintro ⟨h1, h2⟩; omega)]
  · norm_num [dispatch_in_commands, dispatch_step, cmd_in_button_event,
      unpack_BBBhB, beep_effect, keyNames, CMD_KNOB_EVENT,
      CMD_BUTTON_EVENT, CMD_BUZZER_EVENT]
    rfl
  · norm_num [dispatch_in_commands, dispatch_step, cmd_in_button_event,
      unpack_BBBhB, beep_effect, keyNames, CMD_KNOB_EVENT,
      CMD_BUTTON_EVENT, CMD_BUZZER_EVENT]
    rfl
  · norm_num [dispatch_in_commands, dispatch_step, cmd_in_button_event,
      unpack_BBBhB, beep_effect, keyNames, CMD_KNOB_EVENT,
      CMD_BUTTON_EVENT, CMD_BUZZER_EVENT]
    rfl

/-- C8 witness: a concrete sub-second press/release pair produces a
click. -/
theorem C8_witness :
    cmd_in_button_event ⟨0, 0, 0⟩ [6, CMD_BUTTON_EVENT, 1, 0, 0, 126] 0 =
      some (⟨0, 1, 0⟩, []) :=
  C8_button_event.1 ⟨0, 0, 0⟩ 0 6 0 0 126 rfl

/-- C9: dispatch consumes the queued frames strictly front-first — the
run over a concatenation is the run over the first queue followed by
the run over the second from the resulting state, with effects
concatenated in order — and a frame whose `command_id` is not a
registered incoming command (12, 13, 16) produces exactly the diagnostic
effect, leaves the session state untouched, and dispatch continues with
the remaining frames. -/
theorem C9_dispatch_fifo_and_unknown :
    (∀ (s : SessState) (q1 q2 : List (List Nat × ℚ)),
      dispatch_in_commands s (q1 ++ q2) =
        (dispatch_in_commands s q1).bind fun p =>
          (dispatch_in_commands p.1 q2).map fun q => (q.1, p.2 ++ q.2)) ∧
    (∀ (s : SessState) (cmd : List Nat) (t : ℚ)
      (rest : List (List Nat × ℚ)) (cid : Nat),
      cmd[1]? = some cid → cid ≠ CMD_KNOB_EVENT → cid ≠ CMD_BUTTON_EVENT →
      cid ≠ CMD_BUZZER_EVENT →
      dispatch_step s cmd t = some (s, [Effect.cmdError]) ∧
      dispatch_in_commands s ((cmd, t) :: rest) =
        (dispatch_in_commands s rest).map fun p =>
          (p.1, Effect.cmdError :: p.2)) := by
  constructor
  · intro s q1
    induction q1 generalizing s with
    | nil =>
      intro q2
      simp only [List.nil_append, dispatch_in_commands, Option.some_bind]
      cases h : dispatch_in_commands s q2 <;> simp [h]
    | cons ct rest ih =>
      intro q2
      obtain ⟨c, t⟩ := ct
      simp only [List.cons_append, dispatch_in_commands]
      cases h1 : dispatch_step s c t with
      | none => simp
      | some p =>
        obtain ⟨s1, e1⟩ := p
        simp only [Option.bind_eq_bind, Option.some_bind, List.append_eq]
        rw [ih s1 q2]
        cases h2 : dispatch_in_commands s1 rest with
        | none => simp
        | some pr =>
          cases h3 : dispatch_in_commands pr.1 q2 <;>
            simp [h3, List.append_assoc]
  · intro s cmd t rest cid hcid h12 h13 h16
    have hstep : dispatch_step s cmd t = some (s, [Effect.cmdError]) := by
      simp [dispatch_step, hcid, h12, h13, h16]
    refine ⟨hstep, ?_⟩
    simp only [dispatch_in_commands, hstep, Option.some_bind]
    cases h : dispatch_in_commands s rest <;> simp [h]

/-- C9 witness: a CRC-valid frame with unknown command id 99 yields the
diagnostic, an unchanged state, and dispatch of the rest. -/
theorem C9_witness :
    dispatch_step ⟨0, 0, 0⟩ [6, 99, 0, 0, 0, 126] 0 =
        some (⟨0, 0, 0⟩, [Effect.cmdError]) ∧
      dispatch_in_commands ⟨0, 0, 0⟩ [([6, 99, 0, 0, 0, 126], 0)] =
        (dispatch_in_commands ⟨0, 0, 0⟩ []).map fun p =>
          (p.1, Effect.cmdError :: p.2) :=
  C9_dispatch_fifo_and_unknown.2 ⟨0, 0, 0⟩ [6, 99, 0, 0, 0, 126] 0 [] 99
    rfl (by decide) (by decide) (by decide)

end VinDisplay
